import Mathlib

/-!
# Verification of the RAG-Ahadith insertion pipeline (`rag.py`)

Shallow embedding of the batched-insertion pipeline of `rag.py`
(`HadithPGVectorInserter`): the document mapper `create_document_from_row`,
the batch loop `insert_chunks_batch`, the retry helper
`_insert_batch_with_retry`, the progress-checkpoint helpers
`_save_progress` / `_load_progress`, and the driver `process_csv_file`.

External effects are made explicit:
* each call to `vector_store.add_documents` either succeeds or raises; this
  outcome is supplied by a Boolean oracle indexed by (batch index, attempt);
* `time.sleep` and `_save_progress` are recorded as events in a trace, in
  program order, with sleep durations as exact rationals (seconds);
* the checkpoint file `insertion_progress.json` is a threaded
  `Option Progress` state (the wall-clock `timestamp` field of the JSON
  record is not modelled).
-/

set_option autoImplicit false
set_option linter.unusedVariables false

namespace RagAhadith

/-- A scalar cell value as pandas hands it to `create_document_from_row`:
a string, a number, or NaN (the missing-value marker). -/
inductive Value where
  | str (s : String)
  | num (n : Int)
  | nan
deriving DecidableEq

/-- Python `str()` rendering, as used by the f-string that builds
`page_content`. -/
def Value.toStr : Value → String
  | .str s => s
  | .num n => toString n
  | .nan => "nan"

/-- Embedding of `pd.notna` applied to the result of `row.get(key)` (no default):
`False` for Python `None` (key absent) and for NaN, `True` otherwise. -/
def pdNotna : Option Value → Bool
  | none => false
  | some .nan => false
  | some _ => true

/-- A CSV row as a pandas `Series`: each field of interest is either absent
(`none`, so `row.get` falls back to its default) or present with a value. -/
structure Row where
  text_ar : Option Value
  text_en : Option Value
  source : Option Value
  hadith_no : Option Value
  chapter_no : Option Value
  chapter : Option Value
  chain_indx : Option Value
deriving DecidableEq

/-- The metadata dictionary built by `create_document_from_row`. -/
structure HadithMetadata where
  source : Value
  hadith_number : Value
  chapter_number : Value
  chapter : Value
  chain_index : Value
deriving DecidableEq

/-- A LangChain `Document` as produced by the mapper. -/
structure Document where
  page_content : String
  metadata : HadithMetadata
deriving DecidableEq

/-- Embedding of `create_document_from_row` (rag.py lines 110-134): builds the content
string from `text_ar`/`text_en` and the metadata dictionary, with
`row.get` defaults and `pd.notna` guards exactly as in the source. -/
def create_document_from_row (row : Row) : Document :=
  let text_ar := row.text_ar.getD (.str "")
  let text_en := row.text_en.getD (.str "")
  let content :=
    "الحديث باللغة العربية:\n" ++ text_ar.toStr ++ "\n\nhadith in english:\n" ++ text_en.toStr
  { page_content := content
    metadata :=
      { source := row.source.getD (.str "Unknown")
        hadith_number := if pdNotna row.hadith_no then row.hadith_no.getD (.num 0) else .num 0
        chapter_number := if pdNotna row.chapter_no then row.chapter_no.getD (.num 0) else .num 0
        chapter := row.chapter.getD (.str "")
        chain_index := row.chain_indx.getD (.str "") } }

/-- The body of the row-conversion `try` block in `process_csv_file`
(lines 266-271): `some` when `create_document_from_row` returns normally.
Every operation in the mapper is a guarded access (`row.get` with default,
`pd.notna` on the raw lookup) or total string formatting, so the call
always returns normally. -/
def create_document_from_row_opt (row : Row) : Option Document :=
  some (create_document_from_row row)

/-- The row-conversion loop of `process_csv_file` (lines 264-271): rows whose
conversion raises are skipped, the rest are appended in order. -/
def convert_rows (rows : List Row) : List Document :=
  rows.filterMap create_document_from_row_opt

/-- The progress checkpoint persisted by `_save_progress` into
`insertion_progress.json` (the `timestamp` field is wall-clock time and is
not modelled). -/
structure Progress where
  current_batch : Nat
  successful_batches : Nat
  failed_batches : Nat
deriving DecidableEq

/-- An observable effect of the pipeline, in program order:
* `attemptInsert bn a b res` — a call `vector_store.add_documents(b)` for
  batch number `bn` (1-indexed, as in the source), 0-indexed attempt `a`,
  with outcome `res` (`true` = returned, `false` = raised);
* `sleep q` — `time.sleep(q)` with `q` in seconds;
* `saveProgress p` — `_save_progress` writing the checkpoint `p`. -/
inductive Event where
  | attemptInsert (batch_num attempt : Nat) (batch : List Document) (res : Bool)
  | sleep (seconds : ℚ)
  | saveProgress (p : Progress)
deriving DecidableEq

/-- The `for attempt in range(max_retries)` loop of
`_insert_batch_with_retry` (lines 177-193), unrolled on the remaining
iteration count `fuel` with `attempt` the current loop variable
(`fuel + attempt = max_retries` at every call from the top level).
`ok attempt` is the outcome of the `add_documents` call on that attempt.
Falling off the loop (`fuel = 0`) is the final `return False` (line 193). -/
def insertRetryGo (max_retries : Nat) (ok : Nat → Bool) (batch : List Document)
    (batch_num : Nat) : Nat → Nat → Bool × List Event
  | 0, _ => (false, [])
  | fuel + 1, attempt =>
    if ok attempt then
      (true, [.attemptInsert batch_num attempt batch true])
    else if attempt < max_retries - 1 then
      let rest := insertRetryGo max_retries ok batch batch_num fuel (attempt + 1)
      (rest.1,
        .attemptInsert batch_num attempt batch false ::
          .sleep ((2 : ℚ) ^ attempt * 2) :: rest.2)
    else
      (false, [.attemptInsert batch_num attempt batch false])

/-- Embedding of `_insert_batch_with_retry` (rag.py lines 175-193): returns whether the
batch was inserted, together with the trace of attempts and backoff sleeps. -/
def insert_batch_with_retry (max_retries : Nat) (ok : Nat → Bool) (batch : List Document)
    (batch_num : Nat) : Bool × List Event :=
  insertRetryGo max_retries ok batch batch_num max_retries 0

/-- Python `range(start, stop, step)` for `step ≥ 1`. -/
def pyRange (start stop step : Nat) : List Nat :=
  List.range' start ((stop - start + step - 1) / step) step

/-- Final state of one `insert_chunks_batch` run: the counters of lines
152-153, the event trace, and the checkpoint-file state. -/
structure RunResult where
  successful : Nat
  failed : Nat
  trace : List Event
  fs : Option Progress
deriving DecidableEq

/-- The body of the `for i in range(...)` loop of `insert_chunks_batch`
(lines 155-171), over the remaining loop indices. `ok j a` is the outcome
of the `add_documents` call for 0-indexed batch `j`, attempt `a`. On
success the counter is bumped and, every 10 successful batches,
`_save_progress(batch_num, successful, failed)` runs; on failure the failed
counter is bumped; either way a 0.5 s inter-batch sleep follows. -/
def insertBatchesGo (max_retries : Nat) (ok : Nat → Nat → Bool) (documents : List Document)
    (batch_size : Nat) : List Nat → Nat → Nat → Option Progress → RunResult
  | [], successful, failed, fs => ⟨successful, failed, [], fs⟩
  | i :: rest, successful, failed, fs =>
    let batch := (documents.drop i).take batch_size
    let batch_num := i / batch_size + 1
    let r := insert_batch_with_retry max_retries (ok (i / batch_size)) batch batch_num
    if r.1 then
      let p : Progress := ⟨batch_num, successful + 1, failed⟩
      let next := insertBatchesGo max_retries ok documents batch_size rest
        (successful + 1) failed (if (successful + 1) % 10 = 0 then some p else fs)
      ⟨next.successful, next.failed,
        r.2 ++ (if (successful + 1) % 10 = 0 then [Event.saveProgress p] else []) ++
          Event.sleep (1 / 2) :: next.trace,
        next.fs⟩
    else
      let next := insertBatchesGo max_retries ok documents batch_size rest
        successful (failed + 1) fs
      ⟨next.successful, next.failed, r.2 ++ Event.sleep (1 / 2) :: next.trace, next.fs⟩

/-- Embedding of `insert_chunks_batch` (rag.py lines 136-173): iterates
`range(resume_from * batch_size, len(documents), batch_size)`, slicing
`documents[i : i + batch_size]` each step. -/
def insert_chunks_batch (max_retries : Nat) (ok : Nat → Nat → Bool) (documents : List Document)
    (batch_size : Nat) (resume_from : Nat) (fs : Option Progress) : RunResult :=
  insertBatchesGo max_retries ok documents batch_size
    (pyRange (resume_from * batch_size) documents.length batch_size) 0 0 fs

/-- Embedding of `_load_progress` (lines 211-222): the checkpoint file if it exists,
otherwise the all-zero default dictionary. -/
def load_progress (fs : Option Progress) : Progress :=
  fs.getD ⟨0, 0, 0⟩

/-- Embedding of `insert_chunks_individual` (lines 224-243): one `add_documents` call per
document, outcome given by `ok i`; failures are skipped. Returns
(successful_inserts, failed_inserts); it never touches the checkpoint. -/
def insert_chunks_individual (ok : Nat → Bool) (documents : List Document) : Nat × Nat :=
  (List.range documents.length).foldl
    (fun st i => if ok i then (st.1 + 1, st.2) else (st.1, st.2 + 1)) (0, 0)

/-- Embedding of `process_csv_file` (rag.py lines 245-295), from the point where the CSV
has been read successfully: converts rows, loads the checkpoint when
`resume and use_batch_insert`, runs the selected insertion mode, then
deletes the checkpoint file if it exists. Returns the final
checkpoint-file state. -/
def process_csv_file (max_retries : Nat) (ok : Nat → Nat → Bool) (rows : List Row)
    (batch_size : Nat) (use_batch_insert resume : Bool) (fs : Option Progress) :
    Option Progress :=
  let documents := convert_rows rows
  let resume_from := if resume && use_batch_insert then (load_progress fs).current_batch else 0
  let fs2 :=
    if use_batch_insert then
      (insert_chunks_batch max_retries ok documents batch_size resume_from fs).fs
    else fs
  match fs2 with
  | some _ => none
  | none => fs2

/-- The environment variables read by `HadithPGVectorInserter.__init__`.
`MAX_RETRIES` is modelled as the already-parsed integer
(the result of parsing the variable named MAX_RETRIES with int, with the absent case as `none`). -/
structure PyEnv where
  POSTGRES_URL : Option String
  GOOGLE_API_KEY : Option String
  COLLECTION_NAME : Option String
  MAX_RETRIES : Option Int
deriving DecidableEq

/-- The configuration fields `__init__` stores on `self`. -/
structure InserterConfig where
  postgres_url : String
  google_api_key : String
  collection_name : String
  max_retries : Int
deriving DecidableEq

/-- Python `arg or fb` where `arg : Optional[str]` and `fb : Optional[str]`:
`arg` when truthy (non-`None`, non-empty), else `fb`. -/
def pyOrOptStr (arg fb : Option String) : Option String :=
  match arg with
  | some s => if s = "" then fb else some s
  | none => fb

/-- Python `arg or fb` where `arg : Optional[str]` and `fb : str`. -/
def pyOrStr (arg : Option String) (fb : String) : String :=
  match arg with
  | some s => if s = "" then fb else s
  | none => fb

/-- Python `arg or fb` where `arg : Optional[int]` and `fb : int`:
both `None` and `0` are falsy. -/
def pyOrInt (arg : Option Int) (fb : Int) : Int :=
  match arg with
  | some v => if v = 0 then fb else v
  | none => fb

/-- Python truthiness of an `Optional[str]`. -/
def truthyOptStr : Option String → Bool
  | none => false
  | some s => s ≠ ""

/-- Embedding of `HadithPGVectorInserter.__init__` (rag.py lines 22-67) up to the
required-configuration validation: each explicit argument falls back via
`or` to its environment variable (with the built-in defaults of the source),
then `POSTGRES_URL` and `GOOGLE_API_KEY` are required to be truthy. -/
def inserterInit (postgres_url google_api_key collection_name : Option String)
    (max_retries : Option Int) (env : PyEnv) : Except String InserterConfig :=
  let pu := pyOrOptStr postgres_url env.POSTGRES_URL
  let gk := pyOrOptStr google_api_key env.GOOGLE_API_KEY
  let cn := pyOrStr collection_name (env.COLLECTION_NAME.getD "rag_ahadees")
  let mr := pyOrInt max_retries (env.MAX_RETRIES.getD 3)
  if truthyOptStr pu = false then .error "POSTGRES_URL is required"
  else if truthyOptStr gk = false then .error "GOOGLE_API_KEY is required"
  else .ok ⟨pu.getD "", gk.getD "", cn, mr⟩

/-! ## Trace observations -/

/-- The batches submitted to the store, in trace order: one entry per batch,
taken from its first insertion attempt (attempt 0). -/
def attemptedBatches (tr : List Event) : List (Nat × List Document) :=
  tr.filterMap fun e =>
    match e with
    | .attemptInsert bn 0 b _ => some (bn, b)
    | _ => none

/-- The checkpoints written during a trace, in order. -/
def saveEvents (tr : List Event) : List Progress :=
  tr.filterMap fun e =>
    match e with
    | .saveProgress p => some p
    | _ => none

/-- Number of `add_documents` calls in a trace. -/
def attemptCount (tr : List Event) : Nat :=
  tr.countP fun e =>
    match e with
    | .attemptInsert _ _ _ _ => true
    | _ => false

/-- The sleep durations of a trace, in order. -/
def sleepTimes (tr : List Event) : List ℚ :=
  tr.filterMap fun e =>
    match e with
    | .sleep q => some q
    | _ => none

/-- Number of successful batches completed in a trace: each successful batch
contributes exactly its one successful attempt. -/
def succCount (tr : List Event) : Nat :=
  tr.countP fun e =>
    match e with
    | .attemptInsert _ _ _ res => res
    | _ => false

/-- Number of failed batches completed in a trace: a batch fails exactly by
a failing attempt numbered `max_retries - 1`. -/
def failCount (max_retries : Nat) (tr : List Event) : Nat :=
  tr.countP fun e =>
    match e with
    | .attemptInsert _ a _ res => !res && a == max_retries - 1
    | _ => false

/-- Whether an event is a checkpoint write. -/
def isSave : Event → Bool
  | .saveProgress _ => true
  | _ => false

/-- Adjacent-pair relation: a checkpoint write may only directly follow the
successful completion of a batch insertion. -/
def savedAtBoundary (x y : Event) : Prop :=
  isSave y = true → ∃ bn a b, x = Event.attemptInsert bn a b true

/-- Every checkpoint written along the trace records exactly the cumulative
successful/failed batch counts accumulated so far (starting from `s`, `f`),
and a positive multiple of 10 of successful batches. -/
def savesOk (max_retries : Nat) : List Event → Nat → Nat → Prop
  | [], _, _ => True
  | e :: rest, s, f =>
    match e with
    | .attemptInsert _ a _ res =>
        savesOk max_retries rest (s + if res then 1 else 0)
          (f + if !res && a == max_retries - 1 then 1 else 0)
    | .sleep _ => savesOk max_retries rest s f
    | .saveProgress p =>
        p.successful_batches = s ∧ p.failed_batches = f ∧
          p.successful_batches % 10 = 0 ∧ 0 < p.successful_batches ∧
          savesOk max_retries rest s f

/-! ## Lemmas about the retry loop -/

/-- Explicit trace of the retry loop when attempts `a, …, j - 1` fail and
attempt `j` succeeds within the loop bound. -/
lemma insertRetryGo_succ (mr : Nat) (ok : Nat → Bool) (b : List Document) (bn j : Nat)
    (hj : j < mr) (hsucc : ok j = true) :
    ∀ fuel a, a + fuel = mr → a ≤ j → (∀ x, a ≤ x → x < j → ok x = false) →
      insertRetryGo mr ok b bn fuel a =
        (true,
          (List.range' a (j - a)).flatMap
              (fun x => [.attemptInsert bn x b false, .sleep ((2 : ℚ) ^ x * 2)]) ++
            [.attemptInsert bn j b true]) := by
  intro fuel
  induction fuel with
  | zero => intro a hinv ha _; omega
  | succ fuel ih =>
    intro a hinv ha hfail
    rcases Nat.lt_or_ge a j with hlt | hge
    · have hfa : ok a = false := hfail a le_rfl hlt
      have hrange : j - a = (j - (a + 1)) + 1 := by omega
      rw [insertRetryGo, hfa]
      have hlt' : a < mr - 1 := by omega
      simp only [Bool.false_eq_true, if_false, if_pos hlt']
      rw [ih (a + 1) (by omega) (by omega) (fun x hx1 hx2 => hfail x (by omega) hx2)]
      rw [hrange, List.range'_succ]
      simp
    · have haj : a = j := by omega
      subst haj
      rw [insertRetryGo, hsucc]
      simp

/-- Explicit trace of the retry loop when every attempt fails: attempts
`a, …, mr - 1` occur, with a backoff sleep after each except the last. -/
lemma insertRetryGo_fail (mr : Nat) (ok : Nat → Bool) (b : List Document) (bn : Nat)
    (hfail : ∀ x, x < mr → ok x = false) :
    ∀ fuel a, a + fuel = mr → a < mr →
      insertRetryGo mr ok b bn fuel a =
        (false,
          (List.range' a (mr - 1 - a)).flatMap
              (fun x => [.attemptInsert bn x b false, .sleep ((2 : ℚ) ^ x * 2)]) ++
            [.attemptInsert bn (mr - 1) b false]) := by
  intro fuel
  induction fuel with
  | zero => intro a hinv ha; omega
  | succ fuel ih =>
    intro a hinv ha
    have hfa : ok a = false := hfail a ha
    rw [insertRetryGo, hfa]
    simp only [Bool.false_eq_true, if_false]
    rcases Nat.lt_or_ge a (mr - 1) with hlt | hge
    · rw [if_pos hlt]
      rw [ih (a + 1) (by omega) (by omega)]
      have hrange : mr - 1 - a = (mr - 1 - (a + 1)) + 1 := by omega
      rw [hrange, List.range'_succ]
      simp
    · have haj : a = mr - 1 := by omega
      rw [if_neg (by omega)]
      subst haj
      simp

/-- Behavior of `_insert_batch_with_retry` in the success case: attempts `0, …, j - 1` fail,
attempt `j < max_retries` succeeds; each failed attempt `x` is followed by a
`2 ^ x * 2`-second backoff sleep. -/
lemma insert_batch_with_retry_succ (mr : Nat) (ok : Nat → Bool) (b : List Document)
    (bn j : Nat) (hj : j < mr) (hfail : ∀ x, x < j → ok x = false) (hsucc : ok j = true) :
    insert_batch_with_retry mr ok b bn =
      (true,
        (List.range j).flatMap
            (fun x => [.attemptInsert bn x b false, .sleep ((2 : ℚ) ^ x * 2)]) ++
          [.attemptInsert bn j b true]) := by
  rw [insert_batch_with_retry,
    insertRetryGo_succ mr ok b bn j hj hsucc mr 0 (by omega) (by omega)
      (fun x _ hx => hfail x hx)]
  rw [List.range_eq_range']
  simp

/-- Behavior of `_insert_batch_with_retry` in the failure case: all `max_retries` attempts
fail; backoff sleeps follow attempts `0, …, max_retries - 2` only, and the
trace ends with the final failed attempt. -/
lemma insert_batch_with_retry_fail (mr : Nat) (ok : Nat → Bool) (b : List Document)
    (bn : Nat) (hmr : 1 ≤ mr) (hfail : ∀ x, x < mr → ok x = false) :
    insert_batch_with_retry mr ok b bn =
      (false,
        (List.range (mr - 1)).flatMap
            (fun x => [.attemptInsert bn x b false, .sleep ((2 : ℚ) ^ x * 2)]) ++
          [.attemptInsert bn (mr - 1) b false]) := by
  rw [insert_batch_with_retry,
    insertRetryGo_fail mr ok b bn hfail mr 0 (by omega) (by omega)]
  rw [List.range_eq_range']
  simp

/-- The retry loop performs at most `fuel` insertion attempts. -/
lemma insertRetryGo_attemptCount (mr : Nat) (ok : Nat → Bool) (b : List Document) (bn : Nat) :
    ∀ fuel a, attemptCount (insertRetryGo mr ok b bn fuel a).2 ≤ fuel := by
  intro fuel
  induction fuel with
  | zero => intro a; simp [insertRetryGo, attemptCount]
  | succ fuel ih =>
    intro a
    rw [insertRetryGo]
    cases hok : ok a with
    | true => simp [attemptCount]
    | false =>
      simp only [Bool.false_eq_true, if_false]
      split
      · have hrec := ih (a + 1)
        simp only [attemptCount] at hrec ⊢
        simp only [List.countP_cons]
        norm_num
        omega
      · simp [attemptCount]

/-- The retry loop writes no checkpoints. -/
lemma insertRetryGo_saveEvents (mr : Nat) (ok : Nat → Bool) (b : List Document) (bn : Nat) :
    ∀ fuel a, saveEvents (insertRetryGo mr ok b bn fuel a).2 = [] := by
  intro fuel
  induction fuel with
  | zero => intro a; rfl
  | succ fuel ih =>
    intro a
    rw [insertRetryGo]
    cases hok : ok a with
    | true => simp [saveEvents]
    | false =>
      simp only [Bool.false_eq_true, if_false]
      split
      · simpa [saveEvents, List.filterMap_cons] using ih (a + 1)
      · simp [saveEvents]

/-- Iterations of the retry loop past attempt 0 contribute no attempt-0
event. -/
lemma insertRetryGo_attempted_pos (mr : Nat) (ok : Nat → Bool) (b : List Document) (bn : Nat) :
    ∀ fuel a, 1 ≤ a → attemptedBatches (insertRetryGo mr ok b bn fuel a).2 = [] := by
  intro fuel
  induction fuel with
  | zero => intro a _; rfl
  | succ fuel ih =>
    intro a ha
    obtain ⟨a', rfl⟩ : ∃ a', a = a' + 1 := ⟨a - 1, by omega⟩
    rw [insertRetryGo]
    cases hok : ok (a' + 1) with
    | true => simp [attemptedBatches]
    | false =>
      simp only [Bool.false_eq_true, if_false]
      split
      · simpa [attemptedBatches, List.filterMap_cons] using ih (a' + 2) (by omega)
      · simp [attemptedBatches]

/-- Each batch handed to `_insert_batch_with_retry` is submitted exactly
once at attempt 0 (provided the retry budget is positive). -/
lemma insert_batch_with_retry_attempted (mr : Nat) (ok : Nat → Bool) (b : List Document)
    (bn : Nat) (hmr : 1 ≤ mr) :
    attemptedBatches (insert_batch_with_retry mr ok b bn).2 = [(bn, b)] := by
  obtain ⟨f, rfl⟩ : ∃ f, mr = f + 1 := ⟨mr - 1, by omega⟩
  rw [insert_batch_with_retry, insertRetryGo]
  cases hok : ok 0 with
  | true => simp [attemptedBatches]
  | false =>
    simp only [Bool.false_eq_true, if_false]
    split
    · simpa [attemptedBatches, List.filterMap_cons] using
        insertRetryGo_attempted_pos (f + 1) ok b bn f 1 (by omega)
    · simp [attemptedBatches]

/-- The helper `_insert_batch_with_retry` writes no checkpoints. -/
lemma insert_batch_with_retry_saveEvents (mr : Nat) (ok : Nat → Bool) (b : List Document)
    (bn : Nat) : saveEvents (insert_batch_with_retry mr ok b bn).2 = [] :=
  insertRetryGo_saveEvents mr ok b bn mr 0

/-- The trace of `_insert_batch_with_retry` opens with the attempt-0 event
recording the outcome of the first `add_documents` call. -/
lemma insert_batch_with_retry_head (mr : Nat) (ok : Nat → Bool) (b : List Document)
    (bn : Nat) (hmr : 1 ≤ mr) :
    (insert_batch_with_retry mr ok b bn).2.head? =
      some (.attemptInsert bn 0 b (ok 0)) := by
  obtain ⟨f, rfl⟩ : ∃ f, mr = f + 1 := ⟨mr - 1, by omega⟩
  rw [insert_batch_with_retry, insertRetryGo]
  cases hok : ok 0 with
  | true => simp [hok]
  | false =>
    simp only [Bool.false_eq_true, if_false, hok]
    split <;> simp

/-- When the retry loop reports success, its trace ends with a successful
attempt event. -/
lemma insertRetryGo_getLast_true (mr : Nat) (ok : Nat → Bool) (b : List Document) (bn : Nat) :
    ∀ fuel a, (insertRetryGo mr ok b bn fuel a).1 = true →
      ∃ x, (insertRetryGo mr ok b bn fuel a).2.getLast? =
        some (.attemptInsert bn x b true) := by
  intro fuel
  induction fuel with
  | zero => intro a h; simp [insertRetryGo] at h
  | succ fuel ih =>
    intro a h
    rw [insertRetryGo] at h ⊢
    cases hok : ok a with
    | true => exact ⟨a, by simp [hok]⟩
    | false =>
      simp only [hok, Bool.false_eq_true, if_false] at h ⊢
      rcases hlt : decide (a < mr - 1) with _ | _
      · simp only [of_decide_eq_false hlt, if_false] at h
        simp at h
      · simp only [of_decide_eq_true hlt, if_true] at h ⊢
        obtain ⟨x, hx⟩ := ih (a + 1) h
        refine ⟨x, ?_⟩
        cases hrest : (insertRetryGo mr ok b bn fuel (a + 1)).2 with
        | nil => rw [hrest] at hx; simp at hx
        | cons c l =>
          rw [hrest] at hx
          simpa [List.getLast?_cons_cons, hrest] using hx

/-- Running counts contributed by one full retry sequence: a successful
batch contributes one successful attempt and no final failed attempt; a
failed batch contributes the opposite. -/
lemma insertRetryGo_counts (mr : Nat) (ok : Nat → Bool) (b : List Document) (bn : Nat) :
    ∀ fuel a, a + fuel = mr → 1 ≤ fuel →
      succCount (insertRetryGo mr ok b bn fuel a).2 =
          (if (insertRetryGo mr ok b bn fuel a).1 = true then 1 else 0) ∧
        failCount mr (insertRetryGo mr ok b bn fuel a).2 =
          (if (insertRetryGo mr ok b bn fuel a).1 = true then 0 else 1) := by
  intro fuel
  induction fuel with
  | zero => intro a _ h; omega
  | succ fuel ih =>
    intro a hinv _
    rw [insertRetryGo]
    cases hok : ok a with
    | true => simp [succCount, failCount]
    | false =>
      simp only [Bool.false_eq_true, if_false]
      rcases hlt : decide (a < mr - 1) with _ | _
      · have ha : a = mr - 1 := by
          have := of_decide_eq_false hlt
          omega
        simp [succCount, failCount, ha]
      · have hlt' := of_decide_eq_true hlt
        simp only [hlt', if_true]
        have hrec := ih (a + 1) (by omega) (by omega)
        have hne : a ≠ mr - 1 := by omega
        simp only [succCount, failCount, List.countP_cons] at hrec ⊢
        simp [hne, hrec.1, hrec.2]

/-- No-checkpoint traces vacuously satisfy the checkpoint-correctness
predicate. -/
lemma savesOk_of_no_save (mr : Nat) :
    ∀ (tr : List Event) (s f : Nat), saveEvents tr = [] → savesOk mr tr s f := by
  intro tr
  induction tr with
  | nil => intro s f _; trivial
  | cons e rest ih =>
    intro s f h
    cases e with
    | attemptInsert bn a bb res =>
      exact ih _ _ (by simpa [saveEvents, List.filterMap_cons] using h)
    | sleep q =>
      exact ih _ _ (by simpa [saveEvents, List.filterMap_cons] using h)
    | saveProgress p => simp [saveEvents, List.filterMap_cons] at h

/-- The checkpoint-correctness predicate splits along `++`, shifting the
running counts by the counts of the first part. -/
lemma savesOk_append (mr : Nat) :
    ∀ (A B : List Event) (s f : Nat),
      savesOk mr (A ++ B) s f ↔
        savesOk mr A s f ∧ savesOk mr B (s + succCount A) (f + failCount mr A) := by
  intro A
  induction A with
  | nil =>
    intro B s f
    simp [savesOk, succCount, failCount, attemptCount]
  | cons e rest ih =>
    intro B s f
    cases e with
    | attemptInsert bn a bb res =>
      have hs : succCount (Event.attemptInsert bn a bb res :: rest) =
          succCount rest + (if res = true then 1 else 0) := by
        simp [succCount, List.countP_cons]
      have hf : failCount mr (Event.attemptInsert bn a bb res :: rest) =
          failCount mr rest + (if (!res && a == mr - 1) = true then 1 else 0) := by
        simp [failCount, List.countP_cons]
      simp only [List.cons_append, savesOk, List.append_eq]
      rw [hs, hf, ih]
      generalize (if res = true then 1 else 0 : Nat) = d1
      generalize (if (!res && a == mr - 1) = true then 1 else 0 : Nat) = d2
      have e1 : s + d1 + succCount rest = s + (succCount rest + d1) := by omega
      have e2 : f + d2 + failCount mr rest = f + (failCount mr rest + d2) := by omega
      rw [e1, e2]
    | sleep q =>
      have hs : succCount (Event.sleep q :: rest) = succCount rest := by
        simp [succCount, List.countP_cons]
      have hf : failCount mr (Event.sleep q :: rest) = failCount mr rest := by
        simp [failCount, List.countP_cons]
      simp only [List.cons_append, savesOk, List.append_eq]
      rw [hs, hf, ih]
    | saveProgress p =>
      have hs : succCount (Event.saveProgress p :: rest) = succCount rest := by
        simp [succCount, List.countP_cons]
      have hf : failCount mr (Event.saveProgress p :: rest) = failCount mr rest := by
        simp [failCount, List.countP_cons]
      simp only [List.cons_append, savesOk, List.append_eq]
      rw [hs, hf, ih]
      tauto

/-! ## Lemmas about the batch loop -/

/-- Whether the batch starting at document offset `i` is eventually inserted
by its retry sequence. -/
def batchSucceeds (max_retries : Nat) (ok : Nat → Nat → Bool) (documents : List Document)
    (batch_size i : Nat) : Bool :=
  (insert_batch_with_retry max_retries (ok (i / batch_size))
    ((documents.drop i).take batch_size) (i / batch_size + 1)).1

lemma attemptedBatches_append (t1 t2 : List Event) :
    attemptedBatches (t1 ++ t2) = attemptedBatches t1 ++ attemptedBatches t2 := by
  simp [attemptedBatches]

lemma attemptedBatches_sleep (q : ℚ) (t : List Event) :
    attemptedBatches (Event.sleep q :: t) = attemptedBatches t := rfl

lemma attemptedBatches_save (p : Progress) (t : List Event) :
    attemptedBatches (Event.saveProgress p :: t) = attemptedBatches t := rfl

lemma saveEvents_append (t1 t2 : List Event) :
    saveEvents (t1 ++ t2) = saveEvents t1 ++ saveEvents t2 := by
  simp [saveEvents]

lemma saveEvents_nil : saveEvents [] = [] := rfl

lemma saveEvents_sleep (q : ℚ) (t : List Event) :
    saveEvents (Event.sleep q :: t) = saveEvents t := rfl

lemma saveEvents_save (p : Progress) (t : List Event) :
    saveEvents (Event.saveProgress p :: t) = p :: saveEvents t := rfl

/-- The batch loop attempts exactly the batches of its index list, in
order: batch number `i / batch_size + 1` with slice
`documents[i : i + batch_size]`. -/
lemma insertBatchesGo_attempted (mr : Nat) (ok : Nat → Nat → Bool) (docs : List Document)
    (B : Nat) (hmr : 1 ≤ mr) :
    ∀ (l : List Nat) (s f : Nat) (fs : Option Progress),
      attemptedBatches (insertBatchesGo mr ok docs B l s f fs).trace =
        l.map (fun i => (i / B + 1, (docs.drop i).take B)) := by
  intro l
  induction l with
  | nil => intro s f fs; rfl
  | cons i rest ih =>
    intro s f fs
    simp only [insertBatchesGo]
    split
    · by_cases h10 : (s + 1) % 10 = 0 <;>
        simp [h10, attemptedBatches_append, attemptedBatches_sleep, attemptedBatches_save,
          insert_batch_with_retry_attempted mr (ok (i / B)) _ _ hmr, ih]
    · simp [attemptedBatches_append, attemptedBatches_sleep,
        insert_batch_with_retry_attempted mr (ok (i / B)) _ _ hmr, ih]

/-- Final counters of the batch loop: starting counts plus the number of
succeeding (resp. failing) batches of the index list. -/
lemma insertBatchesGo_counts (mr : Nat) (ok : Nat → Nat → Bool) (docs : List Document)
    (B : Nat) :
    ∀ (l : List Nat) (s f : Nat) (fs : Option Progress),
      (insertBatchesGo mr ok docs B l s f fs).successful =
          s + l.countP (fun i => batchSucceeds mr ok docs B i) ∧
        (insertBatchesGo mr ok docs B l s f fs).failed =
          f + l.countP (fun i => !batchSucceeds mr ok docs B i) := by
  intro l
  induction l with
  | nil => intro s f fs; simp [insertBatchesGo]
  | cons i rest ih =>
    intro s f fs
    simp only [insertBatchesGo]
    rcases hres : (insert_batch_with_retry mr (ok (i / B)) ((docs.drop i).take B)
        (i / B + 1)).1 with _ | _
    · have hbs : batchSucceeds mr ok docs B i = false := hres
      simp only [hres, Bool.false_eq_true, if_false, List.countP_cons, hbs]
      have := ih s (f + 1) fs
      simp [this.1, this.2]
      omega
    · have hbs : batchSucceeds mr ok docs B i = true := hres
      simp only [hres, if_true, List.countP_cons, hbs]
      have := ih (s + 1) f (if (s + 1) % 10 = 0 then some ⟨i / B + 1, s + 1, f⟩ else fs)
      simp [this.1, this.2]
      omega

/-- A checkpoint is written exactly each time the cumulative successful
count reaches a further multiple of 10. -/
lemma insertBatchesGo_saveLen (mr : Nat) (ok : Nat → Nat → Bool) (docs : List Document)
    (B : Nat) :
    ∀ (l : List Nat) (s f : Nat) (fs : Option Progress),
      (saveEvents (insertBatchesGo mr ok docs B l s f fs).trace).length + s / 10 =
        (insertBatchesGo mr ok docs B l s f fs).successful / 10 := by
  intro l
  induction l with
  | nil => intro s f fs; simp [insertBatchesGo, saveEvents]
  | cons i rest ih =>
    intro s f fs
    simp only [insertBatchesGo]
    rcases hres : (insert_batch_with_retry mr (ok (i / B)) ((docs.drop i).take B)
        (i / B + 1)).1 with _ | _
    · simp only [hres, Bool.false_eq_true, if_false]
      have hrec := ih s (f + 1) fs
      simp only [saveEvents_append,
        insert_batch_with_retry_saveEvents mr (ok (i / B)) ((docs.drop i).take B) (i / B + 1),
        List.nil_append, saveEvents_sleep]
      exact hrec
    · simp only [hres, if_true]
      by_cases h10 : (s + 1) % 10 = 0
      · have hrec := ih (s + 1) f (some ⟨i / B + 1, s + 1, f⟩)
        have h1 : (s + 1) / 10 = s / 10 + 1 := by omega
        simp only [h10, if_true, saveEvents_append,
          insert_batch_with_retry_saveEvents mr (ok (i / B)) ((docs.drop i).take B) (i / B + 1),
          List.nil_append, List.singleton_append, saveEvents_save, saveEvents_sleep,
          saveEvents_nil, List.length_cons]
        omega
      · have hrec := ih (s + 1) f fs
        have h1 : (s + 1) / 10 = s / 10 := by omega
        simp only [h10, if_false, saveEvents_append,
          insert_batch_with_retry_saveEvents mr (ok (i / B)) ((docs.drop i).take B) (i / B + 1),
          List.nil_append, saveEvents_sleep, saveEvents_nil]
        omega

/-- Counts contributed by one `_insert_batch_with_retry` call, keyed on its
reported outcome. -/
lemma insert_batch_with_retry_counts (mr : Nat) (ok : Nat → Bool) (b : List Document)
    (bn : Nat) (hmr : 1 ≤ mr) :
    succCount (insert_batch_with_retry mr ok b bn).2 =
        (if (insert_batch_with_retry mr ok b bn).1 = true then 1 else 0) ∧
      failCount mr (insert_batch_with_retry mr ok b bn).2 =
        (if (insert_batch_with_retry mr ok b bn).1 = true then 0 else 1) :=
  insertRetryGo_counts mr ok b bn mr 0 (by omega) hmr

lemma succCount_append (t1 t2 : List Event) :
    succCount (t1 ++ t2) = succCount t1 + succCount t2 := by
  simp [succCount]

lemma failCount_append (mr : Nat) (t1 t2 : List Event) :
    failCount mr (t1 ++ t2) = failCount mr t1 + failCount mr t2 := by
  simp [failCount]

lemma savesOk_sleep_cons (mr : Nat) (q : ℚ) (t : List Event) (s f : Nat) :
    savesOk mr (Event.sleep q :: t) s f ↔ savesOk mr t s f := Iff.rfl

lemma savesOk_save_cons (mr : Nat) (p : Progress) (t : List Event) (s f : Nat) :
    savesOk mr (Event.saveProgress p :: t) s f ↔
      p.successful_batches = s ∧ p.failed_batches = f ∧
        p.successful_batches % 10 = 0 ∧ 0 < p.successful_batches ∧
        savesOk mr t s f := Iff.rfl

/-- Every checkpoint written by the batch loop records exactly the running
cumulative counts, and only at positive multiples of 10 successes. -/
lemma insertBatchesGo_savesOk (mr : Nat) (ok : Nat → Nat → Bool) (docs : List Document)
    (B : Nat) (hmr : 1 ≤ mr) :
    ∀ (l : List Nat) (s f : Nat) (fs : Option Progress),
      savesOk mr (insertBatchesGo mr ok docs B l s f fs).trace s f := by
  intro l
  induction l with
  | nil => intro s f fs; trivial
  | cons i rest ih =>
    intro s f fs
    simp only [insertBatchesGo]
    have hcounts := insert_batch_with_retry_counts mr (ok (i / B)) ((docs.drop i).take B)
      (i / B + 1) hmr
    have hsv := insert_batch_with_retry_saveEvents mr (ok (i / B)) ((docs.drop i).take B)
      (i / B + 1)
    rcases hres : (insert_batch_with_retry mr (ok (i / B)) ((docs.drop i).take B)
        (i / B + 1)).1 with _ | _
    · simp only [hres, Bool.false_eq_true, if_false] at hcounts ⊢
      rw [savesOk_append, hcounts.1, hcounts.2]
      refine ⟨savesOk_of_no_save mr _ s f hsv, ?_⟩
      simp only [Nat.add_zero]
      rw [savesOk_sleep_cons]
      exact ih s (f + 1) fs
    · simp only [hres, if_true] at hcounts ⊢
      by_cases h10 : (s + 1) % 10 = 0
      · simp only [h10, if_true]
        rw [savesOk_append, savesOk_append, succCount_append, failCount_append,
          hcounts.1, hcounts.2]
        have hs1 : succCount [Event.saveProgress ⟨i / B + 1, s + 1, f⟩] = 0 := rfl
        have hf1 : failCount mr [Event.saveProgress ⟨i / B + 1, s + 1, f⟩] = 0 := rfl
        rw [hs1, hf1]
        refine ⟨⟨savesOk_of_no_save mr _ s f hsv, ?_⟩, ?_⟩
        · rw [savesOk_save_cons]
          exact ⟨rfl, rfl, h10, Nat.succ_pos s, trivial⟩
        · rw [savesOk_sleep_cons]
          exact ih (s + 1) f _
      · simp only [h10, if_false, List.append_nil]
        rw [savesOk_append, hcounts.1, hcounts.2]
        refine ⟨savesOk_of_no_save mr _ s f hsv, ?_⟩
        rw [savesOk_sleep_cons]
        exact ih (s + 1) f fs

lemma savedAtBoundary_of_not_save (x y : Event) (h : isSave y = false) :
    savedAtBoundary x y := by
  intro hy
  rw [h] at hy
  exact absurd hy (by simp)

/-- A trace without checkpoint writes vacuously satisfies the boundary
chain condition. -/
lemma chain'_savedAtBoundary_of_no_save :
    ∀ (t : List Event), saveEvents t = [] → List.Chain' savedAtBoundary t := by
  intro t
  induction t with
  | nil => intro _; simp
  | cons e rest ih =>
    intro h
    have h2 : saveEvents rest = [] := by
      cases e with
      | attemptInsert bn a b res => exact h
      | sleep q => exact h
      | saveProgress p => exact absurd h (List.cons_ne_nil _ _)
    rw [List.chain'_cons']
    refine ⟨?_, ih h2⟩
    intro y hy
    have hmem : y ∈ rest := List.mem_of_mem_head? hy
    have hnone := List.filterMap_eq_nil_iff.mp h2 _ hmem
    apply savedAtBoundary_of_not_save
    cases y with
    | saveProgress p => simp at hnone
    | attemptInsert bn a b res => rfl
    | sleep q => rfl

/-- When `_insert_batch_with_retry` succeeds, its trace ends with the
successful attempt. -/
lemma insert_batch_with_retry_getLast_true (mr : Nat) (ok : Nat → Bool) (b : List Document)
    (bn : Nat) (h : (insert_batch_with_retry mr ok b bn).1 = true) :
    ∃ x, (insert_batch_with_retry mr ok b bn).2.getLast? =
      some (.attemptInsert bn x b true) :=
  insertRetryGo_getLast_true mr ok b bn mr 0 h

/-- Along the batch-loop trace, a checkpoint write only ever directly
follows a successful insertion attempt, and the trace never opens with a
checkpoint write: checkpoints happen only at completed-batch boundaries. -/
lemma insertBatchesGo_chain (mr : Nat) (ok : Nat → Nat → Bool) (docs : List Document)
    (B : Nat) (hmr : 1 ≤ mr) :
    ∀ (l : List Nat) (s f : Nat) (fs : Option Progress),
      List.Chain' savedAtBoundary (insertBatchesGo mr ok docs B l s f fs).trace ∧
        ∀ e ∈ (insertBatchesGo mr ok docs B l s f fs).trace.head?, isSave e = false := by
  intro l
  induction l with
  | nil =>
    intro s f fs
    exact ⟨List.chain'_nil, by simp [insertBatchesGo]⟩
  | cons i rest ih =>
    intro s f fs
    simp only [insertBatchesGo]
    have hsv := insert_batch_with_retry_saveEvents mr (ok (i / B)) ((docs.drop i).take B)
      (i / B + 1)
    have hhead := insert_batch_with_retry_head mr (ok (i / B)) ((docs.drop i).take B)
      (i / B + 1) hmr
    rcases hres : (insert_batch_with_retry mr (ok (i / B)) ((docs.drop i).take B)
        (i / B + 1)).1 with _ | _
    · simp only [hres, Bool.false_eq_true, if_false]
      obtain ⟨ihc, ihh⟩ := ih s (f + 1) fs
      constructor
      · apply List.Chain'.append
        · exact chain'_savedAtBoundary_of_no_save _ hsv
        · rw [List.chain'_cons']
          exact ⟨fun y hy => savedAtBoundary_of_not_save _ _ (ihh y hy), ihc⟩
        · intro x hx y hy
          simp only [List.head?_cons, Option.mem_def, Option.some.injEq] at hy
          subst hy
          exact savedAtBoundary_of_not_save _ _ rfl
      · intro e he
        rw [List.head?_append, hhead] at he
        simp only [Option.or_some, Option.mem_def, Option.some.injEq] at he
        subst he
        rfl
    · simp only [hres, if_true]
      obtain ⟨ihc, ihh⟩ := ih (s + 1) f
        (if (s + 1) % 10 = 0 then some ⟨i / B + 1, s + 1, f⟩ else fs)
      have hchain_sleep : List.Chain' savedAtBoundary
          (Event.sleep (1 / 2) :: (insertBatchesGo mr ok docs B rest (s + 1) f
            (if (s + 1) % 10 = 0 then some ⟨i / B + 1, s + 1, f⟩ else fs)).trace) := by
        rw [List.chain'_cons']
        exact ⟨fun y hy => savedAtBoundary_of_not_save _ _ (ihh y hy), ihc⟩
      obtain ⟨xa, hlast⟩ := insert_batch_with_retry_getLast_true mr (ok (i / B))
        ((docs.drop i).take B) (i / B + 1) hres
      by_cases h10 : (s + 1) % 10 = 0
      · simp only [h10, if_true] at hchain_sleep ⊢
        constructor
        · apply List.Chain'.append
          · apply List.Chain'.append
            · exact chain'_savedAtBoundary_of_no_save _ hsv
            · exact List.chain'_singleton _
            · intro x hx y hy
              rw [hlast] at hx
              simp only [Option.mem_def, Option.some.injEq] at hx hy
              subst hx
              simp only [List.head?_cons] at hy
              intro _
              exact ⟨i / B + 1, xa, (docs.drop i).take B, rfl⟩
          · exact hchain_sleep
          · intro x hx y hy
            simp only [List.head?_cons, Option.mem_def, Option.some.injEq] at hy
            subst hy
            exact savedAtBoundary_of_not_save _ _ rfl
        · intro e he
          rw [List.head?_append, List.head?_append, hhead] at he
          simp only [Option.or_some, Option.mem_def, Option.some.injEq] at he
          subst he
          rfl
      · simp only [h10, if_false, List.append_nil] at hchain_sleep ⊢
        constructor
        · apply List.Chain'.append
          · exact chain'_savedAtBoundary_of_no_save _ hsv
          · exact hchain_sleep
          · intro x hx y hy
            simp only [List.head?_cons, Option.mem_def, Option.some.injEq] at hy
            subst hy
            exact savedAtBoundary_of_not_save _ _ rfl
        · intro e he
          rw [List.head?_append, hhead] at he
          simp only [Option.or_some, Option.mem_def, Option.some.injEq] at he
          subst he
          rfl

/-! ## Arithmetic of the batch partition -/

/-- A stepped `range'` is the scaled plain `range'`. -/
lemma range'_mul (B : Nat) : ∀ (m k : Nat),
    List.range' (k * B) m B = (List.range' k m).map (· * B) := by
  intro m
  induction m with
  | zero => intro k; rfl
  | succ m ih =>
    intro k
    rw [List.range'_succ, List.range'_succ, List.map_cons, ← Nat.succ_mul, ih (k + 1)]

/-- Number of loop iterations of `range(k * B, N, B)`: the ceiling count
past the first `k` batches. -/
lemma pyRange_length_arith (B k N : Nat) (hB : 1 ≤ B) :
    (N - k * B + B - 1) / B = (N + B - 1) / B - k := by
  rcases le_or_lt (k * B) N with hle | hlt
  · have h1 : N - k * B + B - 1 = (N + B - 1) - B * k := by
      have : B * k = k * B := Nat.mul_comm B k
      omega
    rw [h1, Nat.sub_mul_div (N + B - 1) B k
      (by have hc : B * k = k * B := Nat.mul_comm B k; omega)]
  · have h0 : N - k * B = 0 := by omega
    have h3 : (N + B - 1) / B ≤ k := by
      have hup : N + B - 1 < (k + 1) * B := by
        have hk : (k + 1) * B = k * B + B := by ring
        omega
      have := (Nat.div_lt_iff_lt_mul (by omega : 0 < B)).mpr hup
      omega
    rw [h0]
    simp only [Nat.zero_add]
    rw [Nat.div_eq_of_lt (by omega : B - 1 < B)]
    omega

/-- The index list traversed by `insert_chunks_batch` with `resume_from = k`
is the scaled batch-index list `k, k+1, …`. -/
lemma pyRange_eq_batches (B k N : Nat) (hB : 1 ≤ B) :
    pyRange (k * B) N B =
      (List.range' k ((N + B - 1) / B - k)).map (· * B) := by
  rw [pyRange, pyRange_length_arith B k N hB, range'_mul]

/-- Concatenating the consecutive `B`-sized slices of a list recovers it. -/
lemma flatten_slices (B : Nat) (hB : 1 ≤ B) :
    ∀ (n : Nat) (l : List Document), l.length ≤ n * B →
      ((List.range n).map (fun k => (l.drop (k * B)).take B)).flatten = l := by
  intro n
  induction n with
  | zero =>
    intro l h
    simp only [Nat.zero_mul, Nat.le_zero] at h
    simp [List.eq_nil_of_length_eq_zero h]
  | succ n ih =>
    intro l h
    rw [List.range_succ_eq_map]
    simp only [List.map_cons, List.map_map, List.flatten_cons, Nat.zero_mul, List.drop_zero]
    have hcong : ((List.range n).map (fun k => (l.drop ((k + 1) * B)).take B)) =
        ((List.range n).map (fun k => ((l.drop B).drop (k * B)).take B)) := by
      apply List.map_congr_left
      intro k _
      have hk : (k + 1) * B = B + k * B := by ring
      rw [List.drop_drop, hk]
    have hmapeq : (List.range n).map ((fun k => (l.drop (k * B)).take B) ∘ Nat.succ) =
        (List.range n).map (fun k => (l.drop ((k + 1) * B)).take B) := by
      apply List.map_congr_left
      intro k _
      rfl
    have hlen : (l.drop B).length ≤ n * B := by
      rw [List.length_drop]
      have hnb : (n + 1) * B = n * B + B := by ring
      rw [hnb] at h
      omega
    rw [hmapeq, hcong, ih (l.drop B) hlen]
    exact List.take_append_drop B l

/-- The ceiling division bound: `N ≤ ⌈N / B⌉ * B`. -/
lemma le_ceil_mul (B N : Nat) (hB : 1 ≤ B) : N ≤ ((N + B - 1) / B) * B := by
  have h := Nat.div_add_mod (N + B - 1) B
  have hm : (N + B - 1) % B < B := Nat.mod_lt _ (by omega)
  have : B * ((N + B - 1) / B) = ((N + B - 1) / B) * B := Nat.mul_comm _ _
  omega

/-- When `B` does not divide `N`, the ceiling count is `N / B + 1`. -/
lemma ceil_of_not_dvd (B N : Nat) (hB : 1 ≤ B) (hmod : N % B ≠ 0) :
    (N + B - 1) / B = N / B + 1 := by
  have h := Nat.div_add_mod N B
  have hm : N % B < B := Nat.mod_lt _ (by omega)
  have hd : B * (N / B + 1) = B * (N / B) + B := by ring
  have h1 : N + B - 1 = B * (N / B + 1) + (N % B - 1) := by omega
  rw [h1, Nat.mul_add_div (by omega : 0 < B)]
  have h2 : (N % B - 1) / B = 0 := Nat.div_eq_of_lt (by omega)
  omega

lemma sleepTimes_append (t1 t2 : List Event) :
    sleepTimes (t1 ++ t2) = sleepTimes t1 ++ sleepTimes t2 := by
  simp [sleepTimes]

/-- Sleep times of the failed-attempt/backoff block list. -/
lemma sleepTimes_block (bn : Nat) (b : List Document) (l : List Nat) :
    sleepTimes (l.flatMap
        (fun x => [Event.attemptInsert bn x b false, Event.sleep ((2 : ℚ) ^ x * 2)])) =
      l.map (fun x => (2 : ℚ) ^ x * 2) := by
  induction l with
  | nil => rfl
  | cons x rest ih =>
    simp only [List.flatMap_cons, List.map_cons]
    rw [sleepTimes_append, ih]
    rfl

lemma countP_bool_split {α : Type} (p : α → Bool) (l : List α) :
    l.countP p + l.countP (fun a => !p a) = l.length := by
  induction l with
  | nil => rfl
  | cons a t ih =>
    simp only [List.countP_cons, List.length_cons]
    cases h : p a <;> simp [h] <;> omega

/-- The attempted-batch list of a full `insert_chunks_batch` run with
`resume_from = k`. -/
lemma insert_chunks_batch_attempted (mr B k : Nat) (ok : Nat → Nat → Bool)
    (docs : List Document) (fs : Option Progress) (hB : 1 ≤ B) (hmr : 1 ≤ mr) :
    attemptedBatches (insert_chunks_batch mr ok docs B k fs).trace =
      (List.range' k ((docs.length + B - 1) / B - k)).map
        (fun j => (j + 1, (docs.drop (j * B)).take B)) := by
  rw [insert_chunks_batch, insertBatchesGo_attempted mr ok docs B hmr,
    pyRange_eq_batches B k docs.length hB, List.map_map]
  apply List.map_congr_left
  intro j hj
  simp only [Function.comp_apply]
  rw [Nat.mul_div_cancel j (by omega : 0 < B)]

/-- An empty document list yields an empty run: no events, untouched
checkpoint state. -/
lemma insert_chunks_batch_nil (mr B : Nat) (ok : Nat → Nat → Bool) (docs : List Document)
    (fs : Option Progress) (hB : 1 ≤ B) (h0 : docs.length = 0) :
    insert_chunks_batch mr ok docs B 0 fs = ⟨0, 0, [], fs⟩ := by
  have hz : pyRange (0 * B) docs.length B = [] := by
    rw [pyRange, h0]
    have hzz : (0 - 0 * B + B - 1) / B = 0 := Nat.div_eq_of_lt (by omega)
    rw [hzz]
    rfl
  rw [insert_chunks_batch, hz]
  rfl

/-! ## Concrete sample data for witnesses -/

/-- A fully-populated sample row. -/
def sampleRow : Row :=
  ⟨some (.str "ar-text"), some (.str "en-text"), some (.str "Sahih Bukhari"),
    some (.num 97), some (.num 4), some (.str "Knowledge"), some (.str "1;2;3")⟩

/-- The document the mapper produces from `sampleRow`. -/
def sampleDoc : Document := create_document_from_row sampleRow

/-- Oracle failing attempts 0 and 1, succeeding from attempt 2. -/
def failTwice : Nat → Bool := fun a => decide (2 ≤ a)

/-- Oracle on which every insertion attempt raises. -/
def alwaysFail : Nat → Bool := fun _ => false

/-! ## The claims -/

/-- C3: `_insert_batch_with_retry` performs at most `max_retries` insertion
attempts in total (for every failure pattern); when attempts `0, …, j - 1`
fail and attempt `j < max_retries` succeeds, the batch is reported
successful and the trace is exactly: each failed attempt `x` followed by a
backoff wait of `2 ^ x * 2` time units, then the successful attempt — so a
batch failing twice under `max_retries = 3` succeeds on the third attempt
after exactly two waits of 2 and 4 time units. -/
theorem C3_retry_backoff (mr j : Nat) (ok : Nat → Bool) (b : List Document) (bn : Nat)
    (hj : j < mr) (hfail : ∀ x, x < j → ok x = false) (hsucc : ok j = true) :
    (∀ ok2 : Nat → Bool, attemptCount (insert_batch_with_retry mr ok2 b bn).2 ≤ mr) ∧
      (insert_batch_with_retry mr ok b bn).1 = true ∧
      (insert_batch_with_retry mr ok b bn).2 =
        (List.range j).flatMap
            (fun x => [.attemptInsert bn x b false, .sleep ((2 : ℚ) ^ x * 2)]) ++
          [.attemptInsert bn j b true] ∧
      sleepTimes (insert_batch_with_retry mr ok b bn).2 =
        (List.range j).map (fun x => (2 : ℚ) ^ x * 2) := by
  have hform := insert_batch_with_retry_succ mr ok b bn j hj hfail hsucc
  refine ⟨fun ok2 => insertRetryGo_attemptCount mr ok2 b bn mr 0, by rw [hform], by rw [hform],
    ?_⟩
  rw [hform, sleepTimes_append, sleepTimes_block]
  simp [sleepTimes]

/-- Witness for C3 at the spec scenario: `max_retries = 3`, attempts 0 and
1 fail, attempt 2 succeeds; the backoff waits are 2 s then 4 s. -/
theorem C3_retry_backoff_witness :
    (2 < 3 ∧ (∀ x, x < 2 → failTwice x = false) ∧ failTwice 2 = true) ∧
      ((∀ ok2 : Nat → Bool, attemptCount (insert_batch_with_retry 3 ok2 [sampleDoc] 1).2 ≤ 3) ∧
        (insert_batch_with_retry 3 failTwice [sampleDoc] 1).1 = true ∧
        (insert_batch_with_retry 3 failTwice [sampleDoc] 1).2 =
          (List.range 2).flatMap
              (fun x => [.attemptInsert 1 x [sampleDoc] false, .sleep ((2 : ℚ) ^ x * 2)]) ++
            [.attemptInsert 1 2 [sampleDoc] true] ∧
        sleepTimes (insert_batch_with_retry 3 failTwice [sampleDoc] 1).2 =
          (List.range 2).map (fun x => (2 : ℚ) ^ x * 2)) ∧
      sleepTimes (insert_batch_with_retry 3 failTwice [sampleDoc] 1).2 = [2, 4] :=
  ⟨⟨by decide, by decide, by decide⟩,
    C3_retry_backoff 3 2 failTwice [sampleDoc] 1 (by decide) (by decide) (by decide),
    by
      have hform := insert_batch_with_retry_succ 3 failTwice [sampleDoc] 1 2
        (by decide) (by decide) (by decide)
      rw [hform, sleepTimes_append, sleepTimes_block]
      have hr2 : List.range 2 = [0, 1] := rfl
      rw [hr2]
      norm_num [sleepTimes]⟩

/-- C8 counterexample: with `max_retries = 3` and every attempt failing,
the code applies no backoff after the final failed attempt: the trace ends
with the final attempt and the only waits are 2 s and 4 s (after attempts
0 and 1), refuting the claim that a wait follows the last attempt. -/
theorem C8_counterexample :
    (insert_batch_with_retry 3 alwaysFail [sampleDoc] 1).2.getLast? =
        some (.attemptInsert 1 2 [sampleDoc] false) ∧
      sleepTimes (insert_batch_with_retry 3 alwaysFail [sampleDoc] 1).2 = [2, 4] := by
  constructor
  · decide
  · have hform := insert_batch_with_retry_fail 3 alwaysFail [sampleDoc] 1
      (by decide) (by decide)
    rw [hform, sleepTimes_append, sleepTimes_block]
    have hr2 : List.range (3 - 1) = [0, 1] := rfl
    rw [hr2]
    norm_num [sleepTimes]

/-- C8 amended: the backoff delay is applied only before a retry, never
after the final failed attempt: a batch failing all `max_retries` attempts
sleeps exactly `2 ^ x * 2` time units for `x = 0, …, max_retries - 2`, and
its trace ends with the final failed attempt (no trailing wait). -/
theorem C8_no_wait_after_final_fail (mr : Nat) (ok : Nat → Bool) (b : List Document)
    (bn : Nat) (hmr : 1 ≤ mr) (hfail : ∀ x, x < mr → ok x = false) :
    (insert_batch_with_retry mr ok b bn).1 = false ∧
      sleepTimes (insert_batch_with_retry mr ok b bn).2 =
        (List.range (mr - 1)).map (fun x => (2 : ℚ) ^ x * 2) ∧
      (insert_batch_with_retry mr ok b bn).2.getLast? =
        some (.attemptInsert bn (mr - 1) b false) := by
  have hform := insert_batch_with_retry_fail mr ok b bn hmr hfail
  refine ⟨by rw [hform], ?_, ?_⟩
  · rw [hform, sleepTimes_append, sleepTimes_block]
    simp [sleepTimes]
  · rw [hform, List.getLast?_concat]

/-- Witness for the amended C8 at `max_retries = 3` with every attempt
failing. -/
theorem C8_no_wait_after_final_fail_witness :
    (1 ≤ 3 ∧ (∀ x, x < 3 → alwaysFail x = false)) ∧
      ((insert_batch_with_retry 3 alwaysFail [sampleDoc] 2).1 = false ∧
        sleepTimes (insert_batch_with_retry 3 alwaysFail [sampleDoc] 2).2 =
          (List.range (3 - 1)).map (fun x => (2 : ℚ) ^ x * 2) ∧
        (insert_batch_with_retry 3 alwaysFail [sampleDoc] 2).2.getLast? =
          some (.attemptInsert 2 (3 - 1) [sampleDoc] false)) :=
  ⟨⟨by decide, by decide⟩,
    C8_no_wait_after_final_fail 3 alwaysFail [sampleDoc] 2 (by decide) (by decide)⟩

/-- C6: `process_csv_file` finishes with no checkpoint file present — after
the insertion phase has attempted all its batches (whatever the individual
outcomes, and in either insertion mode), the progress file is deleted
whenever it exists. -/
theorem C6_checkpoint_deleted (mr : Nat) (ok : Nat → Nat → Bool) (rows : List Row)
    (B : Nat) (use_batch_insert resume : Bool) (fs : Option Progress) :
    process_csv_file mr ok rows B use_batch_insert resume fs = none := by
  simp only [process_csv_file]
  split
  · rfl
  · assumption

/-- C7: a row with every field present (as a real value, not NaN) maps to
a Document whose metadata equals the values of the row field-for-field; a row
with all optional fields absent maps to the documented defaults:
`"Unknown"` for source, 0 for the numeric fields, `""` for the other text
fields. -/
theorem C7_mapper_defaults :
    (∀ vta vte vs vh vc vch vci : Value,
      vta ≠ .nan → vte ≠ .nan → vs ≠ .nan → vh ≠ .nan → vc ≠ .nan → vch ≠ .nan →
        vci ≠ .nan →
      (create_document_from_row
          ⟨some vta, some vte, some vs, some vh, some vc, some vch, some vci⟩).metadata =
        ⟨vs, vh, vc, vch, vci⟩) ∧
    (create_document_from_row ⟨none, none, none, none, none, none, none⟩).metadata =
      ⟨.str "Unknown", .num 0, .num 0, .str "", .str ""⟩ := by
  constructor
  · intro vta vte vs vh vc vch vci h1 h2 h3 h4 h5 h6 h7
    cases vh <;> cases vc <;> simp_all [create_document_from_row, pdNotna]
  · rfl

/-- Witness for C7: the fully-populated `sampleRow` maps to exactly its own
values. -/
theorem C7_mapper_defaults_witness :
    (Value.str "ar-text" ≠ Value.nan ∧ Value.str "en-text" ≠ Value.nan ∧
        Value.str "Sahih Bukhari" ≠ Value.nan ∧ Value.num 97 ≠ Value.nan ∧
        Value.num 4 ≠ Value.nan ∧ Value.str "Knowledge" ≠ Value.nan ∧
        Value.str "1;2;3" ≠ Value.nan) ∧
      (create_document_from_row sampleRow).metadata =
        ⟨.str "Sahih Bukhari", .num 97, .num 4, .str "Knowledge", .str "1;2;3"⟩ :=
  ⟨⟨by decide, by decide, by decide, by decide, by decide, by decide, by decide⟩,
    C7_mapper_defaults.1 (.str "ar-text") (.str "en-text") (.str "Sahih Bukhari")
      (.num 97) (.num 4) (.str "Knowledge") (.str "1;2;3")
      (by decide) (by decide) (by decide) (by decide) (by decide) (by decide) (by decide)⟩

/-- C9: a falsy explicit constructor argument (`""` for the string
parameters, `0` for `max_retries`) makes `__init__` behave exactly as if
the argument were omitted, because of the `or` fallback; in particular
`max_retries = 0` resolves to the `MAX_RETRIES` environment value (default
3), so a zero-retry configuration cannot be selected through the
constructor arguments alone. -/
theorem C9_falsy_args (pu gk cn : Option String) (mrv : Option Int) (env : PyEnv) :
    (inserterInit (some "") gk cn mrv env = inserterInit none gk cn mrv env ∧
      inserterInit pu (some "") cn mrv env = inserterInit pu none cn mrv env ∧
      inserterInit pu gk (some "") mrv env = inserterInit pu gk none mrv env ∧
      inserterInit pu gk cn (some 0) env = inserterInit pu gk cn none env) ∧
    (∀ cfg, inserterInit pu gk cn (some 0) env = .ok cfg →
      cfg.max_retries = env.MAX_RETRIES.getD 3) := by
  constructor
  · refine ⟨?_, ?_, ?_, ?_⟩ <;> simp [inserterInit, pyOrOptStr, pyOrStr, pyOrInt]
  · intro cfg h
    simp only [inserterInit] at h
    split at h
    · exact absurd h (by simp)
    · split at h
      · exact absurd h (by simp)
      · simp only [Except.ok.injEq] at h
        rw [← h]
        simp [pyOrInt]

/-- Witness for C9: with `max_retries = 0` passed explicitly and
`MAX_RETRIES = 7` in the environment, the constructed configuration has
`max_retries = 7`. -/
theorem C9_falsy_args_witness :
    (inserterInit none none none (some 0) ⟨some "pg-url", some "g-key", none, some 7⟩ =
        .ok ⟨"pg-url", "g-key", "rag_ahadees", 7⟩) ∧
      (⟨"pg-url", "g-key", "rag_ahadees", 7⟩ : InserterConfig).max_retries =
        (⟨some "pg-url", some "g-key", none, some 7⟩ : PyEnv).MAX_RETRIES.getD 3 :=
  ⟨by rfl,
    (C9_falsy_args none none none (some 0) ⟨some "pg-url", some "g-key", none, some 7⟩).2
      ⟨"pg-url", "g-key", "rag_ahadees", 7⟩ (by rfl)⟩

/-- C10: `create_document_from_row` returns a Document for every row — all
field accesses are guarded — so the skip branch of the conversion loop in
`process_csv_file` never fires: conversion is exactly the row-wise map and
produces as many Documents as rows were read. -/
theorem C10_conversion_total (rows : List Row) :
    convert_rows rows = rows.map create_document_from_row ∧
      (convert_rows rows).length = rows.length ∧
      ∀ row : Row, create_document_from_row_opt row = some (create_document_from_row row) := by
  have h1 : convert_rows rows = rows.map create_document_from_row := by
    show rows.filterMap create_document_from_row_opt = rows.map create_document_from_row
    have h2 : create_document_from_row_opt = some ∘ create_document_from_row := rfl
    rw [h2, List.filterMap_eq_map]
  exact ⟨h1, by rw [h1, List.length_map], fun _ => rfl⟩

/-- C1: with `resume_from = 0` and batch size `B ≥ 1`, `insert_chunks_batch`
attempts exactly `⌈N / B⌉` batches in strictly increasing order — the batch
at list position `k` carries batch number `k + 1` and is the contiguous
slice `documents[k * B : (k + 1) * B]`; every batch except possibly the
last has size `B`; when `B` does not divide `N` the last batch holds
`N mod B` documents; the batches concatenate back to the document list;
and when `N = 0` no batch is attempted, no event occurs, and no checkpoint
is written. -/
theorem C1_partition (mr B : Nat) (ok : Nat → Nat → Bool) (docs : List Document)
    (fs : Option Progress) (hB : 1 ≤ B) (hmr : 1 ≤ mr) :
    (attemptedBatches (insert_chunks_batch mr ok docs B 0 fs).trace).length =
        (docs.length + B - 1) / B ∧
      (∀ k, k < (docs.length + B - 1) / B →
        (attemptedBatches (insert_chunks_batch mr ok docs B 0 fs).trace)[k]? =
          some (k + 1, (docs.drop (k * B)).take B)) ∧
      (∀ k, k + 1 < (docs.length + B - 1) / B →
        ((docs.drop (k * B)).take B).length = B) ∧
      (docs.length % B ≠ 0 →
        ((attemptedBatches (insert_chunks_batch mr ok docs B 0 fs).trace).getLast?).map
            (fun p => p.2.length) = some (docs.length % B)) ∧
      ((attemptedBatches (insert_chunks_batch mr ok docs B 0 fs).trace).map Prod.snd).flatten
          = docs ∧
      (docs.length = 0 → (insert_chunks_batch mr ok docs B 0 fs).trace = [] ∧
        (insert_chunks_batch mr ok docs B 0 fs).fs = fs) := by
  have hmain : attemptedBatches (insert_chunks_batch mr ok docs B 0 fs).trace =
      (List.range ((docs.length + B - 1) / B)).map
        (fun j => (j + 1, (docs.drop (j * B)).take B)) := by
    rw [insert_chunks_batch_attempted mr B 0 ok docs fs hB hmr, Nat.sub_zero,
      List.range_eq_range']
  refine ⟨?_, ?_, ?_, ?_, ?_, ?_⟩
  · rw [hmain, List.length_map, List.length_range]
  · intro k hk
    rw [hmain, List.getElem?_map, List.getElem?_range hk]
    rfl
  · intro k hk
    have hle : (k + 2) * B ≤ docs.length + B - 1 :=
      (Nat.le_div_iff_mul_le (by omega : 0 < B)).mp (by omega)
    have hx : (k + 2) * B = k * B + 2 * B := by ring
    rw [List.length_take, List.length_drop, Nat.min_eq_left (by omega)]
  · intro hmod
    have hceil := ceil_of_not_dvd B docs.length hB hmod
    have hne : (docs.length + B - 1) / B ≠ 0 := by
      rw [hceil]
      exact Nat.succ_ne_zero _
    rw [hmain, List.getLast?_map, List.getLast?_range, if_neg hne]
    have hq : (docs.length + B - 1) / B - 1 = docs.length / B := by
      rw [hceil]
      exact Nat.add_sub_cancel _ _
    rw [hq]
    have hdm := Nat.div_add_mod docs.length B
    have hc : docs.length / B * B = B * (docs.length / B) := Nat.mul_comm _ _
    have hmlt : docs.length % B < B := Nat.mod_lt _ (by omega)
    show some (((docs.drop (docs.length / B * B)).take B).length) =
      some (docs.length % B)
    rw [List.length_take, List.length_drop, Nat.min_eq_right (by omega)]
    have hlast : docs.length - docs.length / B * B = docs.length % B := by omega
    rw [hlast]
  · rw [hmain, List.map_map]
    have hcomp : ((List.range ((docs.length + B - 1) / B)).map
        (Prod.snd ∘ fun j => (j + 1, (docs.drop (j * B)).take B))) =
        ((List.range ((docs.length + B - 1) / B)).map
          (fun j => (docs.drop (j * B)).take B)) := rfl
    rw [hcomp]
    exact flatten_slices B hB _ docs (le_ceil_mul B docs.length hB)
  · intro h0
    rw [insert_chunks_batch_nil mr B ok docs fs hB h0]
    exact ⟨rfl, rfl⟩

/-- Witness for C1 at the spec scenario: 57 documents in batches of 25. -/
theorem C1_partition_witness :
    (1 ≤ 25 ∧ 1 ≤ 3) ∧
      ((attemptedBatches (insert_chunks_batch 3 (fun _ _ => true)
            (List.replicate 57 sampleDoc) 25 0 none).trace).length =
          ((List.replicate 57 sampleDoc).length + 25 - 1) / 25 ∧
        (∀ k, k < ((List.replicate 57 sampleDoc).length + 25 - 1) / 25 →
          (attemptedBatches (insert_chunks_batch 3 (fun _ _ => true)
              (List.replicate 57 sampleDoc) 25 0 none).trace)[k]? =
            some (k + 1, ((List.replicate 57 sampleDoc).drop (k * 25)).take 25)) ∧
        (∀ k, k + 1 < ((List.replicate 57 sampleDoc).length + 25 - 1) / 25 →
          (((List.replicate 57 sampleDoc).drop (k * 25)).take 25).length = 25) ∧
        ((List.replicate 57 sampleDoc).length % 25 ≠ 0 →
          ((attemptedBatches (insert_chunks_batch 3 (fun _ _ => true)
                (List.replicate 57 sampleDoc) 25 0 none).trace).getLast?).map
              (fun p => p.2.length) = some ((List.replicate 57 sampleDoc).length % 25)) ∧
        ((attemptedBatches (insert_chunks_batch 3 (fun _ _ => true)
            (List.replicate 57 sampleDoc) 25 0 none).trace).map Prod.snd).flatten =
          List.replicate 57 sampleDoc ∧
        ((List.replicate 57 sampleDoc).length = 0 →
          (insert_chunks_batch 3 (fun _ _ => true)
              (List.replicate 57 sampleDoc) 25 0 none).trace = [] ∧
            (insert_chunks_batch 3 (fun _ _ => true)
              (List.replicate 57 sampleDoc) 25 0 none).fs = none)) :=
  ⟨⟨by decide, by decide⟩,
    C1_partition 3 25 (fun _ _ => true) (List.replicate 57 sampleDoc) none
      (by decide) (by decide)⟩

/-- C2: with `resume_from = k`, exactly the batches with 0-indexed batch
index `k, k + 1, …, ⌈N / B⌉ - 1` are attempted, in increasing order (each
carrying its 1-indexed batch number `j + 1` and slice
`documents[j * B : (j + 1) * B]`), and no batch with index `< k` is ever
submitted. -/
theorem C2_resume_skips (mr B k : Nat) (ok : Nat → Nat → Bool) (docs : List Document)
    (fs : Option Progress) (hB : 1 ≤ B) (hmr : 1 ≤ mr) :
    attemptedBatches (insert_chunks_batch mr ok docs B k fs).trace =
        (List.range' k ((docs.length + B - 1) / B - k)).map
          (fun j => (j + 1, (docs.drop (j * B)).take B)) ∧
      ∀ p ∈ attemptedBatches (insert_chunks_batch mr ok docs B k fs).trace, k + 1 ≤ p.1 := by
  have hmain := insert_chunks_batch_attempted mr B k ok docs fs hB hmr
  refine ⟨hmain, ?_⟩
  intro p hp
  rw [hmain] at hp
  obtain ⟨j, hj, rfl⟩ := List.mem_map.mp hp
  obtain ⟨i, hi, rfl⟩ := List.mem_range'.mp hj
  show k + 1 ≤ k + 1 * i + 1
  omega

/-- Witness for C2 at the spec scenario: 5 batches (batch size 1), resume
checkpoint `current_batch = 2`: only 0-indexed batches 2, 3, 4 — batch
numbers 3, 4, 5 — are attempted. -/
theorem C2_resume_skips_witness :
    (1 ≤ 1 ∧ 1 ≤ 3) ∧
      (attemptedBatches (insert_chunks_batch 3 (fun _ _ => true)
            (List.replicate 5 sampleDoc) 1 2 none).trace =
          (List.range' 2 (((List.replicate 5 sampleDoc).length + 1 - 1) / 1 - 2)).map
            (fun j => (j + 1, ((List.replicate 5 sampleDoc).drop (j * 1)).take 1)) ∧
        ∀ p ∈ attemptedBatches (insert_chunks_batch 3 (fun _ _ => true)
            (List.replicate 5 sampleDoc) 1 2 none).trace, 2 + 1 ≤ p.1) ∧
      attemptedBatches (insert_chunks_batch 3 (fun _ _ => true)
          (List.replicate 5 sampleDoc) 1 2 none).trace =
        [(3, [sampleDoc]), (4, [sampleDoc]), (5, [sampleDoc])] :=
  ⟨⟨by decide, by decide⟩,
    C2_resume_skips 3 1 2 (fun _ _ => true) (List.replicate 5 sampleDoc) none
      (by decide) (by decide),
    by decide⟩

/-- C4: per-batch failure is non-fatal: in every run the attempted batches
are exactly the scheduled batches, independent of which insertions fail
(so all later batches are still attempted after any failure); a batch whose
attempts all raise reports failure; the failed counter counts exactly the
failing batches, and successful + failed = number of scheduled batches.
The run is a total function of its inputs — no exception escapes it. -/
theorem C4_failure_nonfatal (mr B k : Nat) (ok : Nat → Nat → Bool) (docs : List Document)
    (fs : Option Progress) (hB : 1 ≤ B) (hmr : 1 ≤ mr) :
    (insert_chunks_batch mr ok docs B k fs).successful +
        (insert_chunks_batch mr ok docs B k fs).failed =
        (pyRange (k * B) docs.length B).length ∧
      (insert_chunks_batch mr ok docs B k fs).failed =
        (pyRange (k * B) docs.length B).countP
          (fun i => !batchSucceeds mr ok docs B i) ∧
      (∀ j, (∀ a, a < mr → ok j a = false) →
        ∀ b bn, (insert_batch_with_retry mr (ok j) b bn).1 = false) ∧
      (∀ ok2 : Nat → Nat → Bool,
        attemptedBatches (insert_chunks_batch mr ok2 docs B k fs).trace =
          attemptedBatches (insert_chunks_batch mr ok docs B k fs).trace) := by
  have hc := insertBatchesGo_counts mr ok docs B (pyRange (k * B) docs.length B) 0 0 fs
  refine ⟨?_, ?_, ?_, ?_⟩
  · simp only [insert_chunks_batch]
    rw [hc.1, hc.2, Nat.zero_add, Nat.zero_add]
    exact countP_bool_split _ _
  · simp only [insert_chunks_batch]
    rw [hc.2, Nat.zero_add]
  · intro j hj b bn
    rw [insert_batch_with_retry_fail mr (ok j) b bn hmr hj]
  · intro ok2
    simp only [insert_chunks_batch]
    rw [insertBatchesGo_attempted mr ok docs B hmr,
      insertBatchesGo_attempted mr ok2 docs B hmr]

/-- Witness for C4: batch size 1 over two documents, where batch 0 always
fails and batch 1 succeeds. -/
theorem C4_failure_nonfatal_witness :
    (1 ≤ 1 ∧ 1 ≤ 3) ∧
      ((insert_chunks_batch 3 (fun j _ => decide (j = 1))
            (List.replicate 2 sampleDoc) 1 0 none).successful +
          (insert_chunks_batch 3 (fun j _ => decide (j = 1))
            (List.replicate 2 sampleDoc) 1 0 none).failed =
          (pyRange (0 * 1) (List.replicate 2 sampleDoc).length 1).length ∧
        (insert_chunks_batch 3 (fun j _ => decide (j = 1))
            (List.replicate 2 sampleDoc) 1 0 none).failed =
          (pyRange (0 * 1) (List.replicate 2 sampleDoc).length 1).countP
            (fun i => !batchSucceeds 3 (fun j _ => decide (j = 1))
              (List.replicate 2 sampleDoc) 1 i) ∧
        (∀ j, (∀ a, a < 3 → (fun j _ => decide (j = 1)) j a = false) →
          ∀ b bn, (insert_batch_with_retry 3 ((fun j _ => decide (j = 1)) j) b bn).1 =
            false) ∧
        (∀ ok2 : Nat → Nat → Bool,
          attemptedBatches (insert_chunks_batch 3 ok2
              (List.replicate 2 sampleDoc) 1 0 none).trace =
            attemptedBatches (insert_chunks_batch 3 (fun j _ => decide (j = 1))
              (List.replicate 2 sampleDoc) 1 0 none).trace)) ∧
      (insert_chunks_batch 3 (fun j _ => decide (j = 1))
          (List.replicate 2 sampleDoc) 1 0 none).successful = 1 ∧
      (insert_chunks_batch 3 (fun j _ => decide (j = 1))
          (List.replicate 2 sampleDoc) 1 0 none).failed = 1 :=
  ⟨⟨by decide, by decide⟩,
    C4_failure_nonfatal 3 1 0 (fun j _ => decide (j = 1)) (List.replicate 2 sampleDoc)
      none (by decide) (by decide),
    by decide, by decide⟩

/-- C5: checkpoint discipline of the batch run: every checkpoint written
records exactly the cumulative successful and failed batch counts at its
write point, is a positive multiple of 10 successes (`savesOk`); the number
of checkpoints written equals (final successful count) / 10, i.e. one is
persisted exactly each time the successful count reaches a further
multiple of 10; and every checkpoint event is immediately preceded in the
trace by a successful insertion attempt — a completed-batch boundary —
never mid-batch and never before any batch completes. -/
theorem C5_checkpoint_discipline (mr B k : Nat) (ok : Nat → Nat → Bool)
    (docs : List Document) (fs : Option Progress) (hB : 1 ≤ B) (hmr : 1 ≤ mr) :
    savesOk mr (insert_chunks_batch mr ok docs B k fs).trace 0 0 ∧
      (saveEvents (insert_chunks_batch mr ok docs B k fs).trace).length =
        (insert_chunks_batch mr ok docs B k fs).successful / 10 ∧
      List.Chain' savedAtBoundary (insert_chunks_batch mr ok docs B k fs).trace ∧
      (∀ e ∈ (insert_chunks_batch mr ok docs B k fs).trace.head?, isSave e = false) := by
  refine ⟨insertBatchesGo_savesOk mr ok docs B hmr _ 0 0 fs, ?_,
    (insertBatchesGo_chain mr ok docs B hmr _ 0 0 fs).1,
    (insertBatchesGo_chain mr ok docs B hmr _ 0 0 fs).2⟩
  have hlen := insertBatchesGo_saveLen mr ok docs B (pyRange (k * B) docs.length B) 0 0 fs
  simpa using hlen

/-- Witness for C5: twelve single-document batches, all succeeding — one
checkpoint is written, at the tenth success, recording (10, 0). -/
theorem C5_checkpoint_discipline_witness :
    (1 ≤ 1 ∧ 1 ≤ 3) ∧
      (savesOk 3 (insert_chunks_batch 3 (fun _ _ => true)
            (List.replicate 12 sampleDoc) 1 0 none).trace 0 0 ∧
        (saveEvents (insert_chunks_batch 3 (fun _ _ => true)
            (List.replicate 12 sampleDoc) 1 0 none).trace).length =
          (insert_chunks_batch 3 (fun _ _ => true)
            (List.replicate 12 sampleDoc) 1 0 none).successful / 10 ∧
        List.Chain' savedAtBoundary (insert_chunks_batch 3 (fun _ _ => true)
          (List.replicate 12 sampleDoc) 1 0 none).trace ∧
        (∀ e ∈ (insert_chunks_batch 3 (fun _ _ => true)
            (List.replicate 12 sampleDoc) 1 0 none).trace.head?, isSave e = false)) ∧
      saveEvents (insert_chunks_batch 3 (fun _ _ => true)
          (List.replicate 12 sampleDoc) 1 0 none).trace = [⟨10, 10, 0⟩] :=
  ⟨⟨by decide, by decide⟩,
    C5_checkpoint_discipline 3 1 0 (fun _ _ => true) (List.replicate 12 sampleDoc) none
      (by decide) (by decide),
    by decide⟩

end RagAhadith
